import Mathlib

/-!
Verification of the AREDL verifier-label cache (`src/main.cpp`).

Shallow embedding of the cache-and-fetch layer in `src/main.cpp`:

* `CacheEntry`, `VerifierCache.put` / `VerifierCache.get` — the in-memory
  cache (`std::unordered_map<int, CacheEntry>`), embedded as an association
  list with replace-on-insert semantics.  The reader/writer lock is a
  concurrency artifact with no sequential content and is elided.
* `saveCacheToDisk` / `loadCacheFromDisk` — the tab-separated on-disk codec,
  embedded over `List Char` file contents (`std::getline` becomes `getLines`,
  `geode::utils::string::split` becomes `splitSep`, `std::stoi`/`std::stoll`
  become `stoi?`; the numeric range checks of `stoi`/`stoll`, which only turn
  out-of-range numerals into skipped records, are elided, and timestamps are
  embedded at the seconds granularity that `saveCacheToDisk` persists).
* `initFlow` — the decision logic of `VerifierInfoLayer::init` (setting
  check, level-id validation, cache probe, difficulty gate).
* `fetchCallback` — the completion callback of `fetchAREDLData` (HTTP error
  handling, JSON parse handling, verification extraction, cache store);
  JSON documents are embedded as the inductive `Json`, with the `matjson`
  accessors used by the code (`contains`, `operator[]`, `asString/asArray`
  with `unwrapOr`).
-/

/-- JSON documents as produced by the `matjson` parser, restricted to the
shapes the code inspects (numbers never are, so they are folded into a
single constructor carrying an `Int`). -/
inductive Json where
  | null : Json
  | bool : Bool → Json
  | num : Int → Json
  | str : String → Json
  | arr : List Json → Json
  | obj : List (String × Json) → Json
deriving Repr

/-- The `matjson` accessor `Value::contains(key)`: true iff the value is an object with
the key present. -/
def Json.containsKey : Json → String → Bool
  | .obj kvs, k => kvs.any (fun p => p.1 == k)
  | _, _ => false

/-- The `matjson` accessor `operator[](key)` on a const value: the value at the key (first
occurrence), or a null value when the key is missing or the receiver is not
an object. -/
def Json.getKey : Json → String → Json
  | .obj kvs, k => ((kvs.find? (fun p => p.1 == k)).map Prod.snd).getD Json.null
  | _, _ => Json.null

/-- The `matjson` accessor `v.asString().unwrapOr(d)`. -/
def Json.asStringOr (j : Json) (d : String) : String :=
  match j with
  | .str s => s
  | _ => d

/-- The `matjson` accessor `v.asArray().unwrapOr` with an empty default. -/
def Json.asArrayOr (j : Json) (d : List Json) : List Json :=
  match j with
  | .arr xs => xs
  | _ => d

/-- The struct `CacheEntry` from `src/main.cpp` (lines 58–66).  `fetchedAt` is a
`system_clock::time_point` in the source; the codec persists it as integer
seconds since epoch, so it is embedded as that integer. -/
structure CacheEntry where
  verifierName : String
  videoUrl : String
  fetchedAt : Int
deriving Repr, DecidableEq

/-- The `std::unordered_map<int, CacheEntry>` inside `VerifierCache`,
embedded as an association list with at most one binding per key. -/
abbrev Cache := List (Int × CacheEntry)

namespace VerifierCache

/-- The method `VerifierCache::get` (lines 79–83): point lookup. -/
def get (c : Cache) (levelID : Int) : Option CacheEntry :=
  (c.find? (fun p => p.1 == levelID)).map Prod.snd

/-- The method `VerifierCache::put` (lines 85–88): `m_cache[levelID] = entry` —
replace the existing binding or add a new one. -/
def put (c : Cache) (levelID : Int) (entry : CacheEntry) : Cache :=
  match c with
  | [] => [(levelID, entry)]
  | (k, v) :: rest =>
      if k == levelID then (levelID, entry) :: rest
      else (k, v) :: put rest levelID entry

/-- The method `VerifierCache::contains` (lines 90–93). -/
def containsKey (c : Cache) (levelID : Int) : Bool :=
  c.any (fun p => p.1 == levelID)

end VerifierCache

/-! ## Disk codec (`loadCacheFromDisk` / `saveCacheToDisk`, lines 101–159)

The file is modelled as its character contents (`List Char`).  `getLines`
embeds the `std::getline` loop, `splitSep` the `geode::utils::string::split`
call (separator parts are kept, empties included, as in geode's
`string::split`), and `stoi?` the `std::stoi`/`std::stoll` parses (base 10:
optional leading whitespace, optional sign, at least one digit, trailing
characters ignored; the throwing out-of-range case is elided).  `intRender`
embeds the decimal rendering performed by `operator<<` on save. -/

/-- The decimal digit character for `n < 10` (as produced by `operator<<`). -/
def decDigit (n : Nat) : Char :=
  match n with
  | 0 => '0' | 1 => '1' | 2 => '2' | 3 => '3' | 4 => '4'
  | 5 => '5' | 6 => '6' | 7 => '7' | 8 => '8' | _ => '9'

/-- Big-endian decimal digits of a natural number. -/
def natDigits (n : Nat) : List Char :=
  if _h : n < 10 then [decDigit n]
  else natDigits (n / 10) ++ [decDigit (n % 10)]
termination_by n
decreasing_by
  exact Nat.div_lt_self (by omega) (by omega)

/-- Decimal rendering of an integer, as `operator<<` prints it on save. -/
def intRender (i : Int) : List Char :=
  if i < 0 then '-' :: natDigits i.natAbs else natDigits i.natAbs

/-- Numeric value of a decimal digit character. -/
def digitVal (c : Char) : Nat := c.toNat - 48

/-- Accumulate the value of a big-endian digit run (how `stoi` folds digits). -/
def parseDigits (ds : List Char) : Nat :=
  ds.foldl (fun a c => a * 10 + digitVal c) 0

/-- The functions `std::stoi` / `std::stoll` in base 10: skip leading whitespace, accept an
optional sign, require at least one digit, ignore everything after the digit
run; `none` embeds the `std::invalid_argument` throw (the `out_of_range`
throw on numerals exceeding the machine width is elided). -/
def stoi? (cs : List Char) : Option Int :=
  match cs.dropWhile Char.isWhitespace with
  | '-' :: rest =>
      let ds := rest.takeWhile Char.isDigit
      if ds.isEmpty then none else some (-(parseDigits ds : Int))
  | '+' :: rest =>
      let ds := rest.takeWhile Char.isDigit
      if ds.isEmpty then none else some ((parseDigits ds : Nat) : Int)
  | rest =>
      let ds := rest.takeWhile Char.isDigit
      if ds.isEmpty then none else some ((parseDigits ds : Nat) : Int)

/-- The helper `geode::utils::string::split`: split on a separator
character.  Each segment before a separator is kept, interior empty
segments included, but the final remainder is pushed only when it is
non-empty (`if (s.size()) res.push_back(s)`), so a string ending in the
separator loses its trailing empty field and an empty input yields no
parts at all. -/
def splitSep (sep : Char) : List Char → List (List Char)
  | [] => []
  | c :: cs =>
      if c = sep then [] :: splitSep sep cs
      else
        match splitSep sep cs with
        | [] => [[c]]
        | p :: ps => (c :: p) :: ps

/-- The `std::getline` loop: the maximal `'\n'`-free prefixes of the stream;
a final segment not ended by `'\n'` still yields a line, and an empty stream
yields no lines. -/
def getLines : List Char → List (List Char)
  | [] => []
  | c :: cs =>
      ((c :: cs).takeWhile (fun x => x ≠ '\n')) ::
        getLines (((c :: cs).dropWhile (fun x => x ≠ '\n')).tail)
termination_by l => l.length
decreasing_by
  have h1 := (List.dropWhile_sublist (l := c :: cs)
    (p := fun x => decide (x ≠ '\n'))).length_le
  have h2 := List.length_tail (((c :: cs).dropWhile (fun x => x ≠ '\n')))
  simp only [List.length_cons] at h1 ⊢
  omega

/-- One serialized cache record, without its terminating newline:
`id \t epoch \t verifierName \t videoUrl` (save loop, lines 151–155). -/
def lineOf (id : Int) (e : CacheEntry) : List Char :=
  intRender id ++ '\t' ::
    (intRender e.fetchedAt ++ '\t' ::
      (e.verifierName.data ++ '\t' :: e.videoUrl.data))

/-- The function `saveCacheToDisk` (lines 142–159): the full snapshot is rewritten, one
newline-terminated record per entry.  (The disk-failure path only logs; the
produced contents are what the write succeeds with.) -/
def saveCacheToDisk (snapshot : Cache) : List Char :=
  (snapshot.map (fun p => lineOf p.1 p.2 ++ ['\n'])).flatten

/-- Parsing of one line of the cache file inside the load loop (lines
115–135): empty lines and lines with fewer than 4 tab-separated parts are
skipped, as are lines whose id or epoch field fails numeric parsing; parts
beyond the fourth are ignored. -/
def parseCacheLine (line : List Char) : Option (Int × CacheEntry) :=
  if line.isEmpty then none
  else
    match splitSep '\t' line with
    | p0 :: p1 :: p2 :: p3 :: _ =>
        match stoi? p0, stoi? p1 with
        | some id, some epoch => some (id, ⟨String.mk p2, String.mk p3, epoch⟩)
        | _, _ => none
    | _ => none

/-- One iteration of the load loop: `put` the record if its line parses,
skip the line otherwise (the `continue` branches of lines 116–135). -/
def loadStep (c : Cache) (line : List Char) : Cache :=
  match parseCacheLine line with
  | some (id, e) => VerifierCache.put c id e
  | none => c

/-- The function `loadCacheFromDisk` (lines 108–140): read the file line by line, `put`
each record that parses into the (initially empty) cache, skipping malformed
records individually. -/
def loadCacheFromDisk (file : List Char) : Cache :=
  (getLines file).foldl loadStep []

/-- A file assembled from given newline-free lines, each terminated by
`'\n'` (the shape `saveCacheToDisk` produces). -/
def linesToFile (ls : List (List Char)) : List Char :=
  (ls.map (fun l => l ++ ['\n'])).flatten

/-! ## `VerifierInfoLayer::init` decision flow (lines 242–277) -/

/-- The fields of `GJGameLevel` that `init` inspects. -/
structure LevelInfo where
  levelID : Int
  demonDifficulty : Int
deriving Repr, DecidableEq

/-- The externally observable actions `init` takes after the base-class
init call: whether `VerifierCache::get` was consulted, what it returned,
whether `fetchAREDLData` was issued, and whether `updateUI` was called
(with the cached entry). -/
structure InitActions where
  didCacheLookup : Bool
  cachedEntry : Option CacheEntry
  didFetch : Bool
  didUpdateUI : Bool
deriving Repr, DecidableEq

/-- The hardcoded difficulty gate of `init` (line 267): `m_demonDifficulty
== 6`, the Extreme Demon ordinal — the configured minimum tier. -/
def minDemonDifficulty : Int := 6

/-- The decision logic of `VerifierInfoLayer::init` (lines 242–277), after
cache initialization and UI-element creation: return early when the
`show-label` setting is off; validate the level id (line 255, `levelID <= 0`
is a silent no-op); probe the cache (line 261) and update the UI on a hit;
on a miss, fetch only when `m_demonDifficulty == 6` (line 267). -/
def initFlow (showLabel : Bool) (cache : Cache) (lv : LevelInfo) : InitActions :=
  if !showLabel then ⟨false, none, false, false⟩
  else if lv.levelID ≤ 0 then ⟨false, none, false, false⟩
  else
    match VerifierCache.get cache lv.levelID with
    | some e => ⟨true, some e, false, true⟩
    | none => ⟨true, none, lv.demonDifficulty == minDemonDifficulty, false⟩

/-! ## `fetchAREDLData` completion callback (lines 325–396)

The web response is embedded with the three observations the callback makes
of it: `response.ok()`, `response.code()`, and the outcome of
`response.json()` (`none` embeds a parse failure). -/

/-- A completed web response as the callback observes it. -/
structure WebResponse where
  ok : Bool
  code : Int
  json : Option Json
deriving Repr

/-- The externally observable outcome of one run of the callback:
the last string written to the label (if any), the entry `put` into the
cache (if any), whether `saveCacheToDisk` ran, and the `(verifier, video)`
pair passed to `updateUI` (if it was called). -/
structure FetchOutcome where
  labelText : Option String
  storedEntry : Option CacheEntry
  savedToDisk : Bool
  uiUpdated : Option (String × String)
deriving Repr, DecidableEq

/-- The submitter-name extraction applied to the first verification record
(lines 364–369): when the record has a `submitted_by` object, take its
`global_name`, falling back to its `name`, falling back to `"Unknown"`;
without a `submitted_by` object the initial `"Unknown"` is kept. -/
def submittedName (firstVerif : Json) : String :=
  if firstVerif.containsKey "submitted_by" then
    ((firstVerif.getKey "submitted_by").getKey "global_name").asStringOr
      (((firstVerif.getKey "submitted_by").getKey "name").asStringOr "Unknown")
  else "Unknown"

/-- Extraction of the verification data from a parsed response (lines
353–371): start from `"Unknown"` / `""`; when a `verifications` array is
present and non-empty, take the first record's `video_url` and its
submitter name via `submittedName`; all later records are never read. -/
def extractVerification (levelData : Json) : String × String :=
  if levelData.containsKey "verifications" then
    match (levelData.getKey "verifications").asArrayOr [] with
    | [] => ("Unknown", "")
    | firstVerif :: _ =>
        (submittedName firstVerif, (firstVerif.getKey "video_url").asStringOr "")
  else ("Unknown", "")

/-- The completion callback of `fetchAREDLData` (lines 331–388).  On a
non-2xx response: set the label to `"Not on AREDL"` (404) or
`"Error fetching"` and return without touching cache or disk.  On a parse
failure: set the label to `"Parse error"` and return without touching cache
or disk.  Otherwise extract the verification data, call `updateUI` (which
sets the label to `"Verified by: <name>"`), `put` the entry with
`fetchedAt = now`, and save the cache to disk. -/
def fetchCallback (now : Int) (response : WebResponse) : FetchOutcome :=
  if !response.ok then
    { labelText := some (if response.code == 404 then "Not on AREDL" else "Error fetching")
      storedEntry := none
      savedToDisk := false
      uiUpdated := none }
  else
    match response.json with
    | none =>
        { labelText := some "Parse error"
          storedEntry := none
          savedToDisk := false
          uiUpdated := none }
    | some levelData =>
        let (verifierName, videoUrl) := extractVerification levelData
        { labelText := some ("Verified by: " ++ verifierName)
          storedEntry := some ⟨verifierName, videoUrl, now⟩
          savedToDisk := true
          uiUpdated := some (verifierName, videoUrl) }

/-- The effect of one callback run on the cache for the fetched level
(line 375: `put` exactly when an entry was composed). -/
def applyOutcome (cache : Cache) (levelID : Int) (o : FetchOutcome) : Cache :=
  match o.storedEntry with
  | some e => VerifierCache.put cache levelID e
  | none => cache

/-! ## Validity of entry fields for persistence

A field is persistable exactly when it contains neither the record
separator (tab) nor the line terminator (newline); the spec's "entries
whose fields were valid on save" is this condition. -/

/-- Fields free of the tab separator and of newlines. -/
def validEntry (e : CacheEntry) : Prop :=
  '\t' ∉ e.verifierName.data ∧ '\n' ∉ e.verifierName.data ∧
  '\t' ∉ e.videoUrl.data ∧ '\n' ∉ e.videoUrl.data

instance (e : CacheEntry) : Decidable (validEntry e) := by
  unfold validEntry; infer_instance

/-! ## Helper lemmas: decimal rendering and parsing -/

theorem digitVal_decDigit {d : Nat} (h : d < 10) : digitVal (decDigit d) = d := by
  interval_cases d <;> decide

theorem isDigit_decDigit {d : Nat} (h : d < 10) : (decDigit d).isDigit = true := by
  interval_cases d <;> decide

theorem decDigit_plain {d : Nat} (h : d < 10) :
    decDigit d ≠ '\t' ∧ decDigit d ≠ '\n' ∧ decDigit d ≠ '-' ∧ decDigit d ≠ '+' ∧
    ¬ (decDigit d).isWhitespace := by
  interval_cases d <;> decide

theorem natDigits_ne_nil (n : Nat) : natDigits n ≠ [] := by
  rw [natDigits]
  split <;> simp

theorem natDigits_mem (n : Nat) : ∀ c ∈ natDigits n, ∃ d, d < 10 ∧ c = decDigit d := by
  induction n using Nat.strong_induction_on with
  | _ n ih =>
    rw [natDigits]
    split
    · next h => intro c hc; simp at hc; exact ⟨n, h, hc⟩
    · next h =>
      intro c hc
      simp only [List.mem_append, List.mem_singleton] at hc
      rcases hc with hc | hc
      · exact ih (n / 10) (Nat.div_lt_self (by omega) (by omega)) c hc
      · exact ⟨n % 10, Nat.mod_lt _ (by omega), hc⟩

theorem natDigits_isDigit (n : Nat) : ∀ c ∈ natDigits n, c.isDigit = true := by
  intro c hc
  obtain ⟨d, hd, rfl⟩ := natDigits_mem n c hc
  exact isDigit_decDigit hd

theorem parseDigits_append_one (l : List Char) (c : Char) :
    parseDigits (l ++ [c]) = parseDigits l * 10 + digitVal c := by
  simp [parseDigits, List.foldl_append]

theorem parseDigits_natDigits (n : Nat) : parseDigits (natDigits n) = n := by
  induction n using Nat.strong_induction_on with
  | _ n ih =>
    rw [natDigits]
    split
    · next h => simp [parseDigits, digitVal_decDigit h]
    · next h =>
      rw [parseDigits_append_one, ih (n / 10) (Nat.div_lt_self (by omega) (by omega)),
        digitVal_decDigit (Nat.mod_lt _ (by omega))]
      omega

theorem digit_not_special {c : Char} (h : c.isDigit = true) :
    c.isWhitespace = false ∧ c ≠ '-' ∧ c ≠ '+' ∧ c ≠ '\t' ∧ c ≠ '\n' := by
  have h1 : c ≠ ' ' := by rintro rfl; revert h; decide
  have h2 : c ≠ '\t' := by rintro rfl; revert h; decide
  have h3 : c ≠ '\r' := by rintro rfl; revert h; decide
  have h4 : c ≠ '\n' := by rintro rfl; revert h; decide
  have h5 : c ≠ '-' := by rintro rfl; revert h; decide
  have h6 : c ≠ '+' := by rintro rfl; revert h; decide
  refine ⟨?_, h5, h6, h2, h4⟩
  simp [Char.isWhitespace, h1, h2, h3, h4]

theorem takeWhile_eq_self_of_all {α : Type} {p : α → Bool} {l : List α}
    (h : ∀ c ∈ l, p c = true) : l.takeWhile p = l := by
  induction l with
  | nil => rfl
  | cons c cs ih =>
    rw [List.takeWhile_cons, h c (by simp), if_pos rfl,
      ih (fun x hx => h x (by simp [hx]))]

theorem stoi?_all_digits {l : List Char} (hne : l ≠ [])
    (hd : ∀ c ∈ l, c.isDigit = true) :
    stoi? l = some ((parseDigits l : Nat) : Int) := by
  cases l with
  | nil => exact absurd rfl hne
  | cons c cs =>
    have hc := hd c (by simp)
    have hspec := digit_not_special hc
    have hdw : List.dropWhile Char.isWhitespace (c :: cs) = c :: cs := by
      rw [List.dropWhile_cons, hspec.1]
      simp
    unfold stoi?
    rw [hdw]
    split
    · next rest heq =>
      exact absurd (List.head_eq_of_cons_eq heq) hspec.2.1
    · next rest heq =>
      exact absurd (List.head_eq_of_cons_eq heq) hspec.2.2.1
    · next _ _ =>
      rw [takeWhile_eq_self_of_all hd]
      simp

theorem stoi?_intRender (i : Int) : stoi? (intRender i) = some i := by
  by_cases hneg : i < 0
  · unfold intRender
    rw [if_pos hneg]
    have hdw : List.dropWhile Char.isWhitespace ('-' :: natDigits i.natAbs)
        = '-' :: natDigits i.natAbs := by
      rw [List.dropWhile_cons, show ('-').isWhitespace = false from by decide]
      simp
    unfold stoi?
    rw [hdw]
    split
    · next rest heq =>
      have hrest : rest = natDigits i.natAbs := (List.tail_eq_of_cons_eq heq).symm
      subst hrest
      rw [takeWhile_eq_self_of_all (natDigits_isDigit _)]
      have hne := natDigits_ne_nil i.natAbs
      rw [if_neg (by simpa [List.isEmpty_iff] using hne)]
      rw [parseDigits_natDigits]
      congr 1
      omega
    · next rest heq =>
      exact absurd (List.head_eq_of_cons_eq heq) (by decide)
    · next h1 _ =>
      exact absurd rfl (h1 (natDigits i.natAbs))
  · unfold intRender
    rw [if_neg hneg]
    rw [stoi?_all_digits (natDigits_ne_nil _) (natDigits_isDigit _),
      parseDigits_natDigits]
    congr 1
    omega

theorem intRender_plain (i : Int) : ∀ c ∈ intRender i, c ≠ '\t' ∧ c ≠ '\n' := by
  intro c hc
  unfold intRender at hc
  have hdig : ∀ c ∈ natDigits i.natAbs, c ≠ '\t' ∧ c ≠ '\n' := by
    intro x hx
    obtain ⟨d, hd, rfl⟩ := natDigits_mem _ x hx
    exact ⟨(decDigit_plain hd).1, (decDigit_plain hd).2.1⟩
  split at hc
  · rcases List.mem_cons.mp hc with rfl | hc
    · exact ⟨by decide, by decide⟩
    · exact hdig c hc
  · exact hdig c hc

/-! ## Helper lemmas: line splitting and line assembly -/

theorem splitSep_sepfree {sep : Char} {l : List Char} (hne : l ≠ [])
    (h : ∀ c ∈ l, c ≠ sep) : splitSep sep l = [l] := by
  induction l with
  | nil => exact absurd rfl hne
  | cons c cs ih =>
    rw [splitSep, if_neg (h c (by simp))]
    cases cs with
    | nil => rfl
    | cons d ds =>
      rw [ih (by simp) (fun x hx => h x (by simp [hx]))]

theorem splitSep_append {sep : Char} {a r : List Char} (h : ∀ c ∈ a, c ≠ sep) :
    splitSep sep (a ++ sep :: r) = a :: splitSep sep r := by
  induction a with
  | nil =>
    rw [List.nil_append, splitSep, if_pos rfl]
  | cons c cs ih =>
    rw [List.cons_append, splitSep, if_neg (h c (by simp)),
      ih (fun x hx => h x (by simp [hx]))]

theorem takeWhile_plain_append {l r : List Char} (h : ∀ c ∈ l, c ≠ '\n') :
    (l ++ '\n' :: r).takeWhile (fun x => x ≠ '\n') = l := by
  induction l with
  | nil => rw [List.nil_append, List.takeWhile_cons]; simp
  | cons c cs ih =>
    rw [List.cons_append, List.takeWhile_cons,
      show (decide (c ≠ '\n')) = true from by simp [h c (by simp)], if_pos rfl,
      ih (fun x hx => h x (by simp [hx]))]

theorem dropWhile_plain_append {l r : List Char} (h : ∀ c ∈ l, c ≠ '\n') :
    (l ++ '\n' :: r).dropWhile (fun x => x ≠ '\n') = '\n' :: r := by
  induction l with
  | nil => rw [List.nil_append, List.dropWhile_cons]; simp
  | cons c cs ih =>
    rw [List.cons_append, List.dropWhile_cons,
      show (decide (c ≠ '\n')) = true from by simp [h c (by simp)], if_pos rfl,
      ih (fun x hx => h x (by simp [hx]))]

theorem getLines_line_append {l r : List Char} (h : ∀ c ∈ l, c ≠ '\n') :
    getLines (l ++ '\n' :: r) = l :: getLines r := by
  have hcons : ∀ (c : Char) (cs : List Char), c :: cs = l ++ '\n' :: r →
      getLines (l ++ '\n' :: r) = l :: getLines r := by
    intro c cs heq
    rw [← heq, getLines, heq, takeWhile_plain_append h, dropWhile_plain_append h,
      List.tail_cons]
  cases l with
  | nil => exact hcons '\n' r rfl
  | cons c cs => exact hcons c (cs ++ '\n' :: r) rfl

theorem getLines_linesToFile {ls : List (List Char)}
    (h : ∀ l ∈ ls, ∀ c ∈ l, c ≠ '\n') : getLines (linesToFile ls) = ls := by
  induction ls with
  | nil =>
    show getLines [] = []
    rw [getLines]
  | cons l rest ih =>
    have : linesToFile (l :: rest) = l ++ '\n' :: linesToFile rest := by
      simp [linesToFile]
    rw [this, getLines_line_append (h l (by simp)),
      ih (fun x hx => h x (by simp [hx]))]

/-! ## Helper lemmas: record round-trip and cache map reasoning -/

theorem intRender_ne_nil (i : Int) : intRender i ≠ [] := by
  unfold intRender
  split
  · simp
  · exact natDigits_ne_nil _

theorem lineOf_no_newline {id : Int} {e : CacheEntry} (hv : validEntry e) :
    ∀ c ∈ lineOf id e, c ≠ '\n' := by
  intro c hc heq
  subst heq
  unfold lineOf at hc
  rcases List.mem_append.mp hc with h | h
  · exact (intRender_plain id _ h).2 rfl
  rcases List.mem_cons.mp h with h | h
  · exact absurd h (by decide)
  rcases List.mem_append.mp h with h | h
  · exact (intRender_plain _ _ h).2 rfl
  rcases List.mem_cons.mp h with h | h
  · exact absurd h (by decide)
  rcases List.mem_append.mp h with h | h
  · exact hv.2.1 h
  rcases List.mem_cons.mp h with h | h
  · exact absurd h (by decide)
  exact hv.2.2.2 h

theorem data_ne_nil_of_ne_empty {s : String} (h : s ≠ "") : s.data ≠ [] :=
  fun hd => h (String.ext hd)

theorem splitSep_lineOf {id : Int} {e : CacheEntry} (hv : validEntry e)
    (hvid : e.videoUrl ≠ "") :
    splitSep '\t' (lineOf id e) =
      [intRender id, intRender e.fetchedAt, e.verifierName.data, e.videoUrl.data] := by
  unfold lineOf
  rw [splitSep_append (fun c hc => (intRender_plain id c hc).1),
    splitSep_append (fun c hc => (intRender_plain _ c hc).1),
    splitSep_append (fun c hc heq => hv.1 (by rw [← heq]; exact hc)),
    splitSep_sepfree (data_ne_nil_of_ne_empty hvid)
      (fun c hc heq => hv.2.2.1 (by rw [← heq]; exact hc))]

/-- A record whose final field (the video URL) is empty serializes to a
line ending in the tab separator; the split discards that empty trailing
field, leaving only three parts, and the `parts.size() < 4` check then
skips the record. -/
theorem splitSep_lineOf_empty_video {id : Int} {e : CacheEntry}
    (hv : validEntry e) (hvid : e.videoUrl = "") :
    splitSep '\t' (lineOf id e) =
      [intRender id, intRender e.fetchedAt, e.verifierName.data] := by
  unfold lineOf
  rw [show e.videoUrl.data = [] from by rw [hvid]]
  rw [splitSep_append (fun c hc => (intRender_plain id c hc).1),
    splitSep_append (fun c hc => (intRender_plain _ c hc).1),
    splitSep_append (fun c hc heq => hv.1 (by rw [← heq]; exact hc))]
  rfl

theorem lineOf_ne_nil (id : Int) (e : CacheEntry) : lineOf id e ≠ [] := by
  unfold lineOf
  intro hcontra
  exact intRender_ne_nil id (List.append_eq_nil.mp hcontra).1

theorem parse_lineOf {id : Int} {e : CacheEntry} (hv : validEntry e)
    (hvid : e.videoUrl ≠ "") :
    parseCacheLine (lineOf id e) = some (id, e) := by
  unfold parseCacheLine
  rw [if_neg (by simpa [List.isEmpty_iff] using lineOf_ne_nil id e),
    splitSep_lineOf hv hvid]
  simp [stoi?_intRender]

/-- The silent data-loss case of the codec: a record with an empty video
URL fails to parse back and is skipped by the load loop. -/
theorem parse_lineOf_empty_video {id : Int} {e : CacheEntry}
    (hv : validEntry e) (hvid : e.videoUrl = "") :
    parseCacheLine (lineOf id e) = none := by
  unfold parseCacheLine
  rw [if_neg (by simpa [List.isEmpty_iff] using lineOf_ne_nil id e),
    splitSep_lineOf_empty_video hv hvid]

theorem get_put (c : Cache) (k id : Int) (e : CacheEntry) :
    VerifierCache.get (VerifierCache.put c k e) id =
      if k = id then some e else VerifierCache.get c id := by
  induction c with
  | nil =>
    unfold VerifierCache.put VerifierCache.get
    by_cases h : k = id
    · rw [if_pos h, List.find?_cons_of_pos _ (by simpa using h)]
      rfl
    · rw [if_neg h, List.find?_cons_of_neg _ (by simpa using h)]
  | cons p rest ih =>
    obtain ⟨k', v⟩ := p
    unfold VerifierCache.put
    by_cases h2 : k' = k
    · subst h2
      rw [if_pos (by simp)]
      by_cases h1 : k' = id
      · subst h1
        rw [if_pos rfl]
        unfold VerifierCache.get
        rw [List.find?_cons_of_pos _ (by simp)]
        rfl
      · rw [if_neg h1]
        unfold VerifierCache.get
        rw [List.find?_cons_of_neg _ (by simpa using h1),
          List.find?_cons_of_neg _ (by simpa using h1)]
    · rw [if_neg (by simpa using h2)]
      by_cases h1 : k' = id
      · subst h1
        rw [if_neg (fun hh => h2 hh.symm)]
        unfold VerifierCache.get
        rw [List.find?_cons_of_pos _ (by simp), List.find?_cons_of_pos _ (by simp)]
      · unfold VerifierCache.get at ih ⊢
        rw [List.find?_cons_of_neg _ (by simpa using h1),
          List.find?_cons_of_neg _ (by simpa using h1)]
        exact ih

theorem put_not_mem_append (c : Cache) (k : Int) (e : CacheEntry)
    (h : ∀ p ∈ c, p.1 ≠ k) : VerifierCache.put c k e = c ++ [(k, e)] := by
  induction c with
  | nil => rfl
  | cons p rest ih =>
    obtain ⟨k', v⟩ := p
    unfold VerifierCache.put
    rw [if_neg (by simpa using h (k', v) (by simp)), ih (fun q hq => h q (by simp [hq]))]
    rfl

theorem foldl_put_eq_append (c : Cache) (acc : Cache)
    (hnd : (c.map Prod.fst).Nodup)
    (hdisj : ∀ p ∈ acc, ∀ q ∈ c, p.1 ≠ q.1) :
    c.foldl (fun m p => VerifierCache.put m p.1 p.2) acc = acc ++ c := by
  induction c generalizing acc with
  | nil => simp
  | cons q rest ih =>
    rw [List.foldl_cons,
      put_not_mem_append acc q.1 q.2 (fun p hp => hdisj p hp q (by simp))]
    rw [ih (acc ++ [q]) (by simpa using (List.nodup_cons.mp (by simpa using hnd)).2)]
    · simp
    · intro p hp r hr
      rcases List.mem_append.mp hp with hp | hp
      · exact hdisj p hp r (by simp [hr])
      · have hq : p = q := by simpa using hp
        subst hq
        have hkey : p.1 ∉ rest.map Prod.fst :=
          (List.nodup_cons.mp (by simpa using hnd)).1
        intro heq
        exact hkey (heq ▸ List.mem_map_of_mem Prod.fst hr)

theorem save_eq_linesToFile (c : Cache) :
    saveCacheToDisk c = linesToFile (c.map (fun p => lineOf p.1 p.2)) := by
  unfold saveCacheToDisk linesToFile
  rw [List.map_map]
  rfl

theorem foldl_loadStep_lineOf (c : Cache) (hnd : (c.map Prod.fst).Nodup)
    (hv : ∀ p ∈ c, validEntry p.2) (hvne : ∀ p ∈ c, p.2.videoUrl ≠ "") :
    (c.map (fun p => lineOf p.1 p.2)).foldl loadStep [] = c := by
  simp only [List.foldl_map]
  have hstep : ∀ (m : Cache), ∀ p ∈ c,
      loadStep m (lineOf p.1 p.2) = VerifierCache.put m p.1 p.2 := by
    intro m p hp
    unfold loadStep
    rw [parse_lineOf (hv p hp) (hvne p hp)]
  rw [List.foldl_ext _ (fun m p => VerifierCache.put m p.1 p.2) _ hstep]
  rw [foldl_put_eq_append c [] hnd (by simp), List.nil_append]

theorem loadCacheFromDisk_saveCacheToDisk (c : Cache)
    (hnd : (c.map Prod.fst).Nodup) (hv : ∀ p ∈ c, validEntry p.2)
    (hvne : ∀ p ∈ c, p.2.videoUrl ≠ "") :
    loadCacheFromDisk (saveCacheToDisk c) = c := by
  unfold loadCacheFromDisk
  rw [save_eq_linesToFile, getLines_linesToFile (by
    intro l hl
    obtain ⟨p, hp, rfl⟩ := List.mem_map.mp hl
    exact lineOf_no_newline (hv p hp))]
  exact foldl_loadStep_lineOf c hnd hv hvne

/-! ## Helper lemmas: JSON accessors and the success path of the callback -/

theorem asStringOr_of_not_str {j : Json} (h : ∀ s, j ≠ Json.str s) (d : String) :
    j.asStringOr d = d := by
  cases j <;> first | rfl | exact absurd rfl (h _)

theorem containsKey_of_getKey_arr {j : Json} {k : String} {xs : List Json}
    (h : j.getKey k = Json.arr xs) : j.containsKey k = true := by
  cases j <;> try exact absurd h (fun hc => Json.noConfusion hc)
  next kvs =>
  simp only [Json.containsKey]
  simp only [Json.getKey] at h
  cases hf : kvs.find? (fun p => p.1 == k) with
  | none =>
    rw [hf] at h
    exact absurd h (fun hc => Json.noConfusion hc)
  | some p =>
    have hpk := List.find?_some hf
    exact List.any_eq_true.mpr ⟨p, List.mem_of_find?_eq_some hf, by simpa using hpk⟩

theorem fetchCallback_ok (now code : Int) (levelData : Json) :
    fetchCallback now ⟨true, code, some levelData⟩ =
      { labelText := some ("Verified by: " ++ (extractVerification levelData).1)
        storedEntry := some ⟨(extractVerification levelData).1,
          (extractVerification levelData).2, now⟩
        savedToDisk := true
        uiUpdated := some (extractVerification levelData) } := rfl

/-! ## Claims -/

/-- C6: for every key `k` and entry `e`, `insert(k, e)` on the cache store
followed immediately by `lookup(k)` returns exactly `e` — including when
`e` has an empty `verifierText`, so a negative entry is returned as
`some e`, never treated as missing. -/
theorem put_then_get (c : Cache) (k : Int) (e : CacheEntry) :
    VerifierCache.get (VerifierCache.put c k e) k = some e := by
  rw [get_put, if_pos rfl]

/-- C7: a level whose demon-difficulty ordinal lies below the configured
minimum tier (`minDemonDifficulty = 6`, Extreme Demon) never triggers a
network fetch, regardless of the cache state and of the label setting. -/
theorem below_threshold_no_fetch (showLabel : Bool) (cache : Cache)
    (lv : LevelInfo) (h : lv.demonDifficulty < minDemonDifficulty) :
    (initFlow showLabel cache lv).didFetch = false := by
  unfold initFlow
  split
  · rfl
  split
  · rfl
  split
  · rfl
  show (lv.demonDifficulty == minDemonDifficulty) = false
  have hne : lv.demonDifficulty ≠ minDemonDifficulty := by omega
  simpa using hne

/-- C7 witness: an Insane Demon (ordinal 5) with an empty cache issues no
fetch. -/
theorem below_threshold_no_fetch_witness :
    (initFlow true [] ⟨10, 5⟩).didFetch = false :=
  below_threshold_no_fetch true [] ⟨10, 5⟩ (by decide)

/-- C8: a level identifier ≤ 0 short-circuits as a silent no-op: no cache
lookup is performed, no fetch is issued, and no UI update is attempted,
for every cache state and label setting. -/
theorem invalid_level_noop (showLabel : Bool) (cache : Cache)
    (lv : LevelInfo) (h : lv.levelID ≤ 0) :
    initFlow showLabel cache lv = ⟨false, none, false, false⟩ := by
  unfold initFlow
  by_cases hs : (!showLabel) = true
  · rw [if_pos hs]
  · rw [if_neg hs, if_pos h]

/-- C8 witness: level id 0 with the label enabled and an empty cache does
nothing. -/
theorem invalid_level_noop_witness :
    initFlow true [] ⟨0, 6⟩ = ⟨false, none, false, false⟩ :=
  invalid_level_noop true [] ⟨0, 6⟩ (by decide)

/-- C2 counterexample: a one-entry snapshot whose entry has valid fields
(tab- and newline-free, a whole-second timestamp) but an empty video URL
does not round-trip: its saved line ends in the tab separator, the split
drops the empty final field, the three-part line is skipped by the
`parts.size() < 4` check, and the loaded cache is empty — not the
snapshot. -/
theorem load_save_empty_video_cex :
    loadCacheFromDisk (saveCacheToDisk [(77, ⟨"", "", 12⟩)]) = [] ∧
    ([] : Cache) ≠ [(77, ⟨"", "", 12⟩)] := by
  constructor
  · unfold loadCacheFromDisk
    rw [save_eq_linesToFile, getLines_linesToFile (by
      intro l hl
      obtain ⟨p, hp, rfl⟩ := List.mem_map.mp hl
      have hp77 : p = ((77 : Int), (⟨"", "", 12⟩ : CacheEntry)) := by
        simpa using hp
      subst hp77
      exact lineOf_no_newline (by decide))]
    simp only [List.map_cons, List.map_nil, List.foldl_cons, List.foldl_nil]
    unfold loadStep
    rw [parse_lineOf_empty_video (by decide) rfl]
  · simp

/-- C2 amended: for every cache snapshot with distinct keys whose entries'
fields were valid at save time — tab- and newline-free strings, timestamps
at the seconds granularity the codec persists — and whose video URLs (the
final field of the record format) are all non-empty, loading the file
produced by save reproduces the snapshot exactly.  An entry with an empty
video URL is instead dropped on reload: its line ends in the separator,
the split discards the trailing empty field, and the record is skipped. -/
theorem load_save_roundtrip (c : Cache)
    (hnd : (c.map Prod.fst).Nodup) (hv : ∀ p ∈ c, validEntry p.2)
    (hvne : ∀ p ∈ c, p.2.videoUrl ≠ "") :
    loadCacheFromDisk (saveCacheToDisk c) = c :=
  loadCacheFromDisk_saveCacheToDisk c hnd hv hvne

/-- C2 witness: the round-trip at a concrete two-entry snapshot that
includes an entry with empty verifier name (an interior empty field
round-trips; only the final field must be non-empty). -/
theorem load_save_roundtrip_witness :
    loadCacheFromDisk (saveCacheToDisk
        [(128, ⟨"Alice", "https://youtu.be/a", 1700000000⟩),
         (77, ⟨"", "https://youtu.be/b", 1700000001⟩)])
      = [(128, ⟨"Alice", "https://youtu.be/a", 1700000000⟩),
         (77, ⟨"", "https://youtu.be/b", 1700000001⟩)] :=
  load_save_roundtrip
    [(128, ⟨"Alice", "https://youtu.be/a", 1700000000⟩),
     (77, ⟨"", "https://youtu.be/b", 1700000001⟩)]
    (by decide) (by decide) (by decide)

/-- C5: a persisted file holding the N well-formed records of a valid
snapshot (valid fields and non-empty video URLs, so each line parses back)
plus one malformed record inserted at any position `k` loads exactly the N
snapshot entries: the malformed record is skipped individually and does
not abort loading of the remaining valid records. -/
theorem load_skips_malformed (c : Cache) (k : Nat) (bad : List Char)
    (hnd : (c.map Prod.fst).Nodup) (hv : ∀ p ∈ c, validEntry p.2)
    (hvne : ∀ p ∈ c, p.2.videoUrl ≠ "")
    (hbadnl : ∀ ch ∈ bad, ch ≠ '\n') (hbad : parseCacheLine bad = none) :
    loadCacheFromDisk (linesToFile
        ((c.map (fun p => lineOf p.1 p.2)).take k ++
          bad :: (c.map (fun p => lineOf p.1 p.2)).drop k)) = c ∧
    (loadCacheFromDisk (linesToFile
        ((c.map (fun p => lineOf p.1 p.2)).take k ++
          bad :: (c.map (fun p => lineOf p.1 p.2)).drop k))).length = c.length := by
  have hlines : ∀ l ∈ c.map (fun p => lineOf p.1 p.2), ∀ ch ∈ l, ch ≠ '\n' := by
    intro l hl
    obtain ⟨p, hp, rfl⟩ := List.mem_map.mp hl
    exact lineOf_no_newline (hv p hp)
  have hmain : loadCacheFromDisk (linesToFile
      ((c.map (fun p => lineOf p.1 p.2)).take k ++
        bad :: (c.map (fun p => lineOf p.1 p.2)).drop k)) = c := by
    unfold loadCacheFromDisk
    rw [getLines_linesToFile (by
      intro l hl
      rcases List.mem_append.mp hl with h | h
      · exact hlines l (List.take_subset k _ h)
      · rcases List.mem_cons.mp h with rfl | h
        · exact hbadnl
        · exact hlines l (List.drop_subset k _ h))]
    have hb : ∀ m : Cache, loadStep m bad = m := by
      intro m
      unfold loadStep
      rw [hbad]
    rw [List.foldl_append, List.foldl_cons, hb, ← List.foldl_append,
      List.take_append_drop]
    exact foldl_loadStep_lineOf c hnd hv hvne
  exact ⟨hmain, by rw [hmain]⟩

/-- C5 witness: a one-entry snapshot (with a non-empty video URL, so its
record is well-formed) with the malformed line "oops" appended after it
loads exactly the one entry. -/
theorem load_skips_malformed_witness :
    loadCacheFromDisk (linesToFile
        ((([(5, ⟨"Bob", "https://v", 10⟩)] : Cache).map
            (fun p => lineOf p.1 p.2)).take 1 ++
          ('o' :: 'o' :: 'p' :: 's' :: []) ::
            (([(5, ⟨"Bob", "https://v", 10⟩)] : Cache).map
              (fun p => lineOf p.1 p.2)).drop 1))
      = [(5, ⟨"Bob", "https://v", 10⟩)] :=
  (load_skips_malformed [(5, ⟨"Bob", "https://v", 10⟩)] 1
    ('o' :: 'o' :: 'p' :: 's' :: [])
    (by decide) (by decide) (by decide) (by decide) (by decide)).1

/-- C1 counterexample: an HTTP 404 response for level 12345 stores nothing —
the callback outcome carries no entry and no disk save, and a subsequent
lookup of 12345 (on a cache that never held it) still returns `none`,
contradicting the claimed negative-entry store. -/
theorem http_failure_negative_entry_cex :
    (fetchCallback 1700000000 ⟨false, 404, none⟩).storedEntry = none ∧
    (fetchCallback 1700000000 ⟨false, 404, none⟩).savedToDisk = false ∧
    VerifierCache.get
      (applyOutcome [] 12345 (fetchCallback 1700000000 ⟨false, 404, none⟩))
      12345 = none :=
  ⟨rfl, rfl, rfl⟩

/-- C1 amended: on transport/HTTP failure the callback stores no entry and
persists nothing; the cache is left unchanged — so a previously uncached
key still looks up as `none` — and the label is set to the error message
("Not on AREDL" for HTTP 404, otherwise "Error fetching"). -/
theorem http_failure_no_store (now code : Int) (j : Option Json)
    (c : Cache) (id : Int) :
    (fetchCallback now ⟨false, code, j⟩).storedEntry = none ∧
    (fetchCallback now ⟨false, code, j⟩).savedToDisk = false ∧
    (fetchCallback now ⟨false, code, j⟩).labelText =
      some (if code == 404 then "Not on AREDL" else "Error fetching") ∧
    applyOutcome c id (fetchCallback now ⟨false, code, j⟩) = c :=
  ⟨rfl, rfl, rfl, rfl⟩

/-- C9 counterexample: on a 2xx response whose body fails JSON parsing, the
callback does change the UI — the label is set to the error message
"Parse error" — contradicting the claim that the UI keeps showing its
prior state (no entry is stored, as claimed). -/
theorem parse_failure_error_label_cex :
    (fetchCallback 1700000000 ⟨true, 200, none⟩).storedEntry = none ∧
    (fetchCallback 1700000000 ⟨true, 200, none⟩).labelText = some "Parse error" ∧
    (fetchCallback 1700000000 ⟨true, 200, none⟩).labelText ≠ none :=
  ⟨rfl, rfl, by decide⟩

/-- C9 amended: a JSON parse failure stores no entry and leaves the cache
unchanged (the prior cache state remains authoritative) and calls no
`updateUI`, but the label does not keep its prior text: it is set to
"Parse error". -/
theorem parse_failure_skips_store (now code : Int) (c : Cache) (id : Int) :
    (fetchCallback now ⟨true, code, none⟩).storedEntry = none ∧
    (fetchCallback now ⟨true, code, none⟩).savedToDisk = false ∧
    (fetchCallback now ⟨true, code, none⟩).uiUpdated = none ∧
    (fetchCallback now ⟨true, code, none⟩).labelText = some "Parse error" ∧
    applyOutcome c id (fetchCallback now ⟨true, code, none⟩) = c :=
  ⟨rfl, rfl, rfl, rfl, rfl⟩

/-- C3 counterexample: for a parsed response listing two verification
records — "Alice" with URL "https://a", then "Bob" with URL "https://b" —
the composed entry is `⟨"Alice", "https://a", now⟩`: the verifier text is
"Alice", not the claimed "Alice & Bob". -/
theorem two_verifications_cex :
    (fetchCallback 0 ⟨true, 200, some (Json.obj [("verifications", Json.arr
        [Json.obj [("video_url", Json.str "https://a"),
          ("submitted_by", Json.obj [("global_name", Json.str "Alice")])],
         Json.obj [("video_url", Json.str "https://b"),
          ("submitted_by", Json.obj [("global_name", Json.str "Bob")])]])])⟩).storedEntry
      = some ⟨"Alice", "https://a", 0⟩ ∧
    ("Alice" : String) ≠ "Alice & Bob" :=
  ⟨by decide, by decide⟩

/-- C3 amended: the composed cache entry is built from the first listed
verification record alone — its submitter name and its URL — and every
record beyond the first is ignored entirely (the callback outcome for
`r1 :: rest` equals the outcome for `[r1]`). -/
theorem first_verification_only (now code : Int) (r1 : Json) (rest : List Json) :
    (fetchCallback now ⟨true, code, some (Json.obj
        [("verifications", Json.arr (r1 :: rest))])⟩).storedEntry
      = some ⟨submittedName r1, (r1.getKey "video_url").asStringOr "", now⟩ ∧
    fetchCallback now ⟨true, code, some (Json.obj
        [("verifications", Json.arr (r1 :: rest))])⟩
      = fetchCallback now ⟨true, code, some (Json.obj
        [("verifications", Json.arr [r1])])⟩ := by
  have hx : ∀ tl : List Json,
      extractVerification (Json.obj [("verifications", Json.arr (r1 :: tl))]) =
        (submittedName r1, (r1.getKey "video_url").asStringOr "") := by
    intro tl
    unfold extractVerification
    rw [show (Json.obj [("verifications", Json.arr (r1 :: tl))]).containsKey
        "verifications" = true from rfl, if_pos rfl]
    rfl
  constructor
  · rw [fetchCallback_ok, hx rest]
  · rw [fetchCallback_ok, fetchCallback_ok, hx rest, hx []]

/-- C4 counterexample: a verification record whose `submitted_by` object
carries only a `"username"` field yields the display name "Unknown": the
code's fallback field is `"name"`, not `"username"`, so the claimed
username fallback never fires. -/
theorem username_fallback_cex :
    submittedName (Json.obj [("submitted_by",
        Json.obj [("username", Json.str "Bob")])]) = "Unknown" ∧
    ("Unknown" : String) ≠ "Bob" :=
  ⟨by decide, by decide⟩

/-- C4 amended: the submitter display name prefers the `global_name` field
of `submitted_by`; when that is not a string it falls back to the `name`
field (not `username`); when neither is a string it falls back to the
literal "Unknown". -/
theorem submitted_name_precedence (r : Json)
    (hc : r.containsKey "submitted_by" = true) :
    (∀ s, (r.getKey "submitted_by").getKey "global_name" = Json.str s →
      submittedName r = s) ∧
    (∀ t, (∀ s, (r.getKey "submitted_by").getKey "global_name" ≠ Json.str s) →
      (r.getKey "submitted_by").getKey "name" = Json.str t →
      submittedName r = t) ∧
    ((∀ s, (r.getKey "submitted_by").getKey "global_name" ≠ Json.str s) →
     (∀ t, (r.getKey "submitted_by").getKey "name" ≠ Json.str t) →
      submittedName r = "Unknown") := by
  unfold submittedName
  rw [hc, if_pos rfl]
  refine ⟨?_, ?_, ?_⟩
  · intro s hs
    rw [hs]
    rfl
  · intro t hg ht
    rw [asStringOr_of_not_str hg, ht]
    rfl
  · intro hg ht
    rw [asStringOr_of_not_str hg, asStringOr_of_not_str ht]

/-- C4 witness: a record whose `submitted_by` has `global_name` "G" is
displayed as "G" by the first (preference) part of the amendment. -/
theorem submitted_name_precedence_witness :
    submittedName (Json.obj [("submitted_by",
        Json.obj [("global_name", Json.str "G")])]) = "G" :=
  (submitted_name_precedence
    (Json.obj [("submitted_by", Json.obj [("global_name", Json.str "G")])])
    rfl).1 "G" rfl

/-- C10 counterexample: on a parsed 2xx response whose single verification
record has a `video_url` but no `submitted_by`, the stored entry is
`⟨"Unknown", "https://v", 5⟩`: the video URL is not empty, contradicting
the claim that it is empty in that case. -/
theorem missing_submitter_video_cex :
    (fetchCallback 5 ⟨true, 200, some (Json.obj [("verifications",
        Json.arr [Json.obj [("video_url", Json.str "https://v")]])])⟩).storedEntry
      = some ⟨"Unknown", "https://v", 5⟩ ∧
    ("https://v" : String) ≠ "" :=
  ⟨by decide, by decide⟩

/-- C10 amended: every 2xx response that parses stores an entry with
`fetchedAt = now`.  When `verifications` is absent the stored entry is
`⟨"Unknown", "", now⟩`, likewise when the array is empty; when the first
record lacks `submitted_by` the verifier name is "Unknown" but the stored
video URL is that record's `video_url` string (empty only when that field
is absent or not a string). -/
theorem success_always_stores (now code : Int) (levelData : Json) :
    ((fetchCallback now ⟨true, code, some levelData⟩).storedEntry =
      some ⟨(extractVerification levelData).1,
        (extractVerification levelData).2, now⟩) ∧
    (levelData.containsKey "verifications" = false →
      (fetchCallback now ⟨true, code, some levelData⟩).storedEntry =
        some ⟨"Unknown", "", now⟩) ∧
    (levelData.getKey "verifications" = Json.arr [] →
      (fetchCallback now ⟨true, code, some levelData⟩).storedEntry =
        some ⟨"Unknown", "", now⟩) ∧
    (∀ r1 rest, levelData.getKey "verifications" = Json.arr (r1 :: rest) →
      r1.containsKey "submitted_by" = false →
      (fetchCallback now ⟨true, code, some levelData⟩).storedEntry =
        some ⟨"Unknown", (r1.getKey "video_url").asStringOr "", now⟩) := by
  refine ⟨by rw [fetchCallback_ok], ?_, ?_, ?_⟩
  · intro h
    rw [fetchCallback_ok]
    have hx : extractVerification levelData = ("Unknown", "") := by
      unfold extractVerification
      rw [h]
      simp
    rw [hx]
  · intro h
    rw [fetchCallback_ok]
    have hx : extractVerification levelData = ("Unknown", "") := by
      unfold extractVerification
      rw [containsKey_of_getKey_arr h, if_pos rfl, h]
      rfl
    rw [hx]
  · intro r1 rest h hsub
    rw [fetchCallback_ok]
    have hx : extractVerification levelData =
        ("Unknown", (r1.getKey "video_url").asStringOr "") := by
      unfold extractVerification
      rw [containsKey_of_getKey_arr h, if_pos rfl, h]
      simp only [Json.asArrayOr]
      unfold submittedName
      rw [hsub]
      simp
    rw [hx]

/-- C10 witness: a parsed response with an empty `verifications` array
still stores an entry — `⟨"Unknown", "", 7⟩`. -/
theorem success_always_stores_witness :
    (fetchCallback 7 ⟨true, 200,
        some (Json.obj [("verifications", Json.arr [])])⟩).storedEntry
      = some ⟨"Unknown", "", 7⟩ :=
  (success_always_stores 7 200 (Json.obj [("verifications", Json.arr [])])).2.2.1 rfl
